import Mathlib

/-!
Verification of the static-site generator `generate_portfolio.py`.

The script is a linear pipeline: load `portfolio.json`, set `current_year`,
inline the contents of each social link's `svg_path` file as `svg_data`,
render two Jinja2 templates (autoescape enabled) against the augmented
document, and write `index.html` and `resume.html`.

The shallow embedding below models:
  - JSON values (`Json`) as produced by Python's `json.load`; Python dicts
    are association lists in insertion order (`JsonObj`; a dict created by
    `json.load` never holds duplicate keys, and `objLookup`/`objSet` agree
    with dict indexing and item assignment on such lists);
  - the file system as a partial map from path to decoded UTF-8 contents;
  - the JSON wire format via a canonical serializer `serialize` and a parser
    `parseJson` modelling `json.load`'s grammar (integers for numbers);
  - the external Jinja2 engine as a minimal node-list template language with
    the configuration the script selects (`autoescape=True`), interpolation
    escaping via markupsafe's rules, the `|safe` filter, and a node standing
    for any template construct whose evaluation raises at render time;
  - the orchestration `main` as `mainRun`, which returns the list of
    (path, contents) writes on success and the first raised condition
    otherwise; both writes occur after every fallible step, as in the source
    (loads at lines 67-79, renders at 81-82, writes at 84-85).
-/

mutual
inductive Json where
  | null
  | bool (b : Bool)
  | num (n : Int)
  | str (s : String)
  | arr (xs : JsonList)
  | obj (kvs : JsonObj)
inductive JsonList where
  | nil
  | cons (hd : Json) (tl : JsonList)
inductive JsonObj where
  | nil
  | cons (k : String) (v : Json) (tl : JsonObj)
end

/-- Elements of a JSON array, as a plain list. -/
def JsonList.toList : JsonList → List Json
  | .nil => []
  | .cons x tl => x :: tl.toList

/-- Dict lookup, `d[k]` / `k in d`: the binding for `k`, if any. -/
def objLookup : JsonObj → String → Option Json
  | .nil, _ => none
  | .cons k v tl, key => if k = key then some v else objLookup tl key

/-- Dict item assignment, `d[k] = v`: update the binding in place if the key
is present, otherwise append it (insertion order, as Python dicts do). -/
def objSet : JsonObj → String → Json → JsonObj
  | .nil, key, v => .cons key v .nil
  | .cons k v' tl, key, v =>
      if k = key then .cons key v tl else .cons k v' (objSet tl key v)

/-- The keys of a dict, in insertion order. -/
def keysOf : JsonObj → List String
  | .nil => []
  | .cons k _ tl => k :: keysOf tl

/-- Membership test `k in d`. -/
def hasKey (o : JsonObj) (k : String) : Bool :=
  (objLookup o k).isSome

/-- The failure conditions a run can raise (section 7's taxonomy):
missing file (`FileNotFoundError`), invalid JSON (`JSONDecodeError`),
a Python `TypeError` (non-dict document, iterating a non-iterable,
`Path(non-string)`), a missing template, and a template that raises
while rendering. -/
inductive RunError where
  | notFound (path : String)
  | malformedInput
  | typeError
  | templateNotFound (name : String)
  | templateRenderError
deriving DecidableEq

/-- The file system: decoded UTF-8 contents per path, `none` when absent. -/
def FS : Type := String → Option String

/-! JSON wire format: canonical serializer. -/

/-- Decimal digit character. -/
def digitChar : Nat → Char
  | 0 => '0' | 1 => '1' | 2 => '2' | 3 => '3' | 4 => '4'
  | 5 => '5' | 6 => '6' | 7 => '7' | 8 => '8' | _ => '9'

/-- Lower-case hexadecimal digit character. -/
def hexChar : Nat → Char
  | 0 => '0' | 1 => '1' | 2 => '2' | 3 => '3' | 4 => '4'
  | 5 => '5' | 6 => '6' | 7 => '7' | 8 => '8' | 9 => '9'
  | 10 => 'a' | 11 => 'b' | 12 => 'c' | 13 => 'd' | 14 => 'e' | _ => 'f'

/-- Decimal digits of `n`, most significant first. -/
def natToChars (n : Nat) : List Char :=
  if n < 10 then [digitChar n]
  else natToChars (n / 10) ++ [digitChar (n % 10)]
termination_by n
decreasing_by exact Nat.div_lt_self (by omega) (by omega)

/-- Serialization of a JSON integer. -/
def serInt (n : Int) : List Char :=
  if n < 0 then '-' :: natToChars n.natAbs else natToChars n.toNat

/-- JSON string escaping for one character: quote and backslash get a
backslash escape, control characters a `\u00XX` escape, everything else
passes through. -/
def escChar (c : Char) : List Char :=
  if c = '"' then ['\\', '"']
  else if c = '\\' then ['\\', '\\']
  else if c.toNat < 32 then
    ['\\', 'u', '0', '0', hexChar (c.toNat / 16), hexChar (c.toNat % 16)]
  else [c]

/-- JSON string escaping, character by character. -/
def escChars : List Char → List Char
  | [] => []
  | c :: cs => escChar c ++ escChars cs

mutual
/-- Canonical serialization of a JSON value (no interior whitespace). -/
def serV : Json → List Char
  | .null => 'n' :: ('u' :: ['l', 'l'])
  | .bool true => 't' :: ('r' :: ['u', 'e'])
  | .bool false => 'f' :: ('a' :: ['l', 's', 'e'])
  | .num n => serInt n
  | .str s => '"' :: (escChars s.data ++ ['"'])
  | .arr xs => '[' :: (serElems xs ++ [']'])
  | .obj kvs => '{' :: (serMembers kvs ++ ['}'])
/-- Array elements, comma-separated. -/
def serElems : JsonList → List Char
  | .nil => []
  | .cons x .nil => serV x
  | .cons x (.cons y tl) => serV x ++ ',' :: serElems (.cons y tl)
/-- Object members, comma-separated `"key":value` pairs. -/
def serMembers : JsonObj → List Char
  | .nil => []
  | .cons k v .nil => '"' :: (escChars k.data ++ '"' :: ':' :: serV v)
  | .cons k v (.cons k' v' tl) =>
      '"' :: (escChars k.data ++ '"' :: ':' :: serV v)
        ++ ',' :: serMembers (.cons k' v' tl)
end

/-- Canonical JSON serialization as a string. -/
def serialize (j : Json) : String := String.mk (serV j)

/-! JSON wire format: parser, modelling `json.load`. -/

/-- JSON insignificant whitespace. -/
def isWs (c : Char) : Bool :=
  c = ' ' || c = '\n' || c = '\t' || c = '\r'

/-- Drop leading JSON whitespace. -/
def skipWs : List Char → List Char
  | [] => []
  | c :: cs => if isWs c then skipWs cs else c :: cs

/-- Value of a hexadecimal digit character, if it is one. -/
def hexVal (c : Char) : Option Nat :=
  let n := c.toNat
  if 48 ≤ n ∧ n ≤ 57 then some (n - 48)
  else if 97 ≤ n ∧ n ≤ 102 then some (n - 87)
  else if 65 ≤ n ∧ n ≤ 70 then some (n - 55)
  else none

/-- Body of a JSON string, after the opening quote: the decoded characters
and the input after the closing quote. Control characters must be escaped;
`\uXXXX` escapes outside the surrogate range decode to the scalar value. -/
def parseStringBody : List Char → Option (List Char × List Char)
  | [] => none
  | c :: cs =>
    if c = '"' then some ([], cs)
    else if c = '\\' then
      match cs with
      | [] => none
      | e :: cs1 =>
        if e = '"' then (parseStringBody cs1).map (fun p => ('"' :: p.1, p.2))
        else if e = '\\' then (parseStringBody cs1).map (fun p => ('\\' :: p.1, p.2))
        else if e = '/' then (parseStringBody cs1).map (fun p => ('/' :: p.1, p.2))
        else if e = 'b' then (parseStringBody cs1).map (fun p => (Char.ofNat 8 :: p.1, p.2))
        else if e = 'f' then (parseStringBody cs1).map (fun p => (Char.ofNat 12 :: p.1, p.2))
        else if e = 'n' then (parseStringBody cs1).map (fun p => ('\n' :: p.1, p.2))
        else if e = 'r' then (parseStringBody cs1).map (fun p => ('\r' :: p.1, p.2))
        else if e = 't' then (parseStringBody cs1).map (fun p => ('\t' :: p.1, p.2))
        else if e = 'u' then
          match cs1 with
          | h1 :: h2 :: h3 :: h4 :: cs2 =>
            match hexVal h1, hexVal h2, hexVal h3, hexVal h4 with
            | some a, some b, some c', some d =>
              let n := a * 4096 + b * 256 + c' * 16 + d
              if n < 55296 ∨ 57343 < n then
                (parseStringBody cs2).map (fun p => (Char.ofNat n :: p.1, p.2))
              else none
            | _, _, _, _ => none
          | _ => none
        else none
    else if c.toNat < 32 then none
    else (parseStringBody cs).map (fun p => (c :: p.1, p.2))

/-- Numeric value of a run of decimal digit characters. -/
def charsToNat (ds : List Char) : Nat :=
  ds.foldl (fun a c => a * 10 + (c.toNat - 48)) 0

/-- A nonempty run of decimal digits and the rest of the input. -/
def parseDigits (cs : List Char) : Option (Nat × List Char) :=
  let ds := cs.takeWhile (fun c => c.isDigit)
  if ds.isEmpty then none
  else some (charsToNat ds, cs.dropWhile (fun c => c.isDigit))

mutual
/-- One JSON value and the remaining input. `fuel` bounds nesting plus the
number of composite steps; the entry point supplies more than enough. -/
def parseValue : Nat → List Char → Option (Json × List Char)
  | 0, _ => none
  | fuel + 1, cs =>
    match skipWs cs with
    | [] => none
    | c :: cs' =>
      if c = 'n' then
        if cs'.take 3 = ['u', 'l', 'l'] then some (.null, cs'.drop 3) else none
      else if c = 't' then
        if cs'.take 3 = ['r', 'u', 'e'] then some (.bool true, cs'.drop 3) else none
      else if c = 'f' then
        if cs'.take 4 = ['a', 'l', 's', 'e'] then some (.bool false, cs'.drop 4) else none
      else if c = '"' then
        (parseStringBody cs').map (fun p => (.str (String.mk p.1), p.2))
      else if c = '[' then
        let cs'' := skipWs cs'
        if cs''.head? = some ']' then some (.arr .nil, cs''.tail)
        else (parseElems fuel cs'').map (fun p => (.arr p.1, p.2))
      else if c = '{' then
        let cs'' := skipWs cs'
        if cs''.head? = some '}' then some (.obj .nil, cs''.tail)
        else (parseMembers fuel cs'').map (fun p => (.obj p.1, p.2))
      else if c = '-' then
        (parseDigits cs').map (fun p => (.num (-(p.1 : Int)), p.2))
      else if c.isDigit then
        (parseDigits (c :: cs')).map (fun p => (.num (p.1 : Int), p.2))
      else none
/-- One or more comma-separated array elements, up to and including the
closing bracket. -/
def parseElems : Nat → List Char → Option (JsonList × List Char)
  | 0, _ => none
  | fuel + 1, cs =>
    match parseValue fuel cs with
    | none => none
    | some (v, r) =>
      match skipWs r with
      | ',' :: r' => (parseElems fuel (skipWs r')).map (fun p => (.cons v p.1, p.2))
      | ']' :: r' => some (.cons v .nil, r')
      | _ => none
/-- One or more comma-separated object members, up to and including the
closing brace. -/
def parseMembers : Nat → List Char → Option (JsonObj × List Char)
  | 0, _ => none
  | fuel + 1, cs =>
    match cs with
    | '"' :: cs1 =>
      match parseStringBody cs1 with
      | none => none
      | some (kl, r1) =>
        match skipWs r1 with
        | ':' :: r2 =>
          match parseValue fuel (skipWs r2) with
          | none => none
          | some (v, r3) =>
            match skipWs r3 with
            | ',' :: r4 =>
              (parseMembers fuel (skipWs r4)).map
                (fun p => (.cons (String.mk kl) v p.1, p.2))
            | '}' :: r4 => some (.cons (String.mk kl) v .nil, r4)
            | _ => none
        | _ => none
    | _ => none
end

/-- `json.load` on decoded text: one JSON value, then only whitespace. -/
def parseJson (s : String) : Option Json :=
  match parseValue (s.data.length + 1) s.data with
  | some (j, r) => if skipWs r = [] then some j else none
  | none => none

mutual
/-- Fuel sufficient for `parseValue` on the serialization of a value. -/
def needV : Json → Nat
  | .arr xs => 1 + needE xs
  | .obj kvs => 1 + needM kvs
  | _ => 1
/-- Fuel sufficient for `parseElems` on serialized elements. -/
def needE : JsonList → Nat
  | .nil => 0
  | .cons x tl => 1 + max (needV x) (needE tl)
/-- Fuel sufficient for `parseMembers` on serialized members. -/
def needM : JsonObj → Nat
  | .nil => 0
  | .cons _ v tl => 1 + max (needV v) (needM tl)
end

/-- What may legitimately follow a serialized value: end of input or a
non-digit (so a serialized number is not extended by the context). -/
def delimOk : List Char → Prop
  | [] => True
  | c :: _ => c.isDigit = false

/-- Loads JSON data from a file (`load_json`): open the path — raising
`NotFound` when absent — and parse the contents with `json.load`, raising
`MalformedInput` on a parse error. -/
def load_json (fs : FS) (file_path : String) : Except RunError Json :=
  match fs file_path with
  | none => .error (.notFound file_path)
  | some s =>
    match parseJson s with
    | none => .error .malformedInput
    | some j => .ok j

/-! Python stringification, as Jinja applies `str()` to interpolated values. -/

/-- One character inside a Python string repr with quote character `q`. -/
def pyReprStrChar (q : Char) (c : Char) : List Char :=
  if c = '\\' then ['\\', '\\']
  else if c = q then ['\\', q]
  else if c = '\n' then ['\\', 'n']
  else if c = '\r' then ['\\', 'r']
  else if c = '\t' then ['\\', 't']
  else if c.toNat < 32 ∨ c.toNat = 127 then
    ['\\', 'x', hexChar (c.toNat / 16), hexChar (c.toNat % 16)]
  else [c]

/-- Python `repr` of a string: single-quoted, double-quoted when the text
holds a single quote but no double quote. -/
def pyReprStr (s : String) : List Char :=
  let q := if s.data.contains '\'' && !(s.data.contains '"') then '"' else '\''
  q :: ((s.data.map (pyReprStrChar q)).flatten ++ [q])

mutual
/-- Python `repr` of a JSON-shaped value. -/
def pyRepr : Json → List Char
  | .null => ['N', 'o', 'n', 'e']
  | .bool true => ['T', 'r', 'u', 'e']
  | .bool false => ['F', 'a', 'l', 's', 'e']
  | .num n => serInt n
  | .str s => pyReprStr s
  | .arr xs => '[' :: (pyReprElems xs ++ [']'])
  | .obj kvs => '{' :: (pyReprMembers kvs ++ ['}'])
/-- List elements inside a Python repr. -/
def pyReprElems : JsonList → List Char
  | .nil => []
  | .cons x .nil => pyRepr x
  | .cons x (.cons y tl) => pyRepr x ++ ',' :: ' ' :: pyReprElems (.cons y tl)
/-- Dict items inside a Python repr. -/
def pyReprMembers : JsonObj → List Char
  | .nil => []
  | .cons k v .nil => pyReprStr k ++ ':' :: ' ' :: pyRepr v
  | .cons k v (.cons k' v' tl) =>
      pyReprStr k ++ ':' :: ' ' :: pyRepr v ++ ',' :: ' ' :: pyReprMembers (.cons k' v' tl)
end

/-- Python `str()` of a JSON-shaped value: identity on strings, `True` /
`False` / `None` for the keywords, decimal for integers, repr for
containers. -/
def pyStr : Json → String
  | .str s => s
  | .null => "None"
  | .bool true => "True"
  | .bool false => "False"
  | .num n => String.mk (serInt n)
  | j => String.mk (pyRepr j)

/-! The Jinja2 engine, as configured by the script. -/

/-- HTML escaping of one character, markupsafe's rules. -/
def escapeHtmlChar (c : Char) : List Char :=
  if c = '&' then "&amp;".data
  else if c = '<' then "&lt;".data
  else if c = '>' then "&gt;".data
  else if c = '"' then "&#34;".data
  else if c = '\'' then "&#39;".data
  else [c]

/-- HTML escaping applied to interpolated values when autoescape is on. -/
def escapeHtml (s : String) : String :=
  String.mk ((s.data.map escapeHtmlChar).flatten)

/-- A parsed template: literal text, an interpolation of a context variable,
the same passed through the `safe` filter, and a construct that raises while
rendering (modelling `TemplateRenderError`). -/
inductive TmplNode where
  | text (s : String)
  | var (name : String)
  | varSafe (name : String)
  | raiseError

/-- A template is a sequence of nodes. -/
def Tmpl : Type := List TmplNode

/-- The engine environment: the template loader (`FileSystemLoader`, a
lookup from template name to its parsed template) and the autoescape flag. -/
structure Env where
  loader : String → Option Tmpl
  autoescape : Bool

/-- Sets up the Jinja2 environment (`setup_jinja_env`): the given loader,
with `autoescape=True`. -/
def setup_jinja_env (loader : String → Option Tmpl) : Env :=
  ⟨loader, true⟩

/-- Loads a template (`load_template` / `env.get_template`): raises
`TemplateNotFound` when the loader has no template of that name. -/
def load_template (env : Env) (template_name : String) : Except RunError Tmpl :=
  match env.loader template_name with
  | none => .error (.templateNotFound template_name)
  | some t => .ok t

/-- Rendering of one node: text passes through; an interpolation looks the
variable up in the context (Jinja's default `Undefined` prints as the empty
string), stringifies it, and HTML-escapes it when autoescape is on and the
value is not marked safe. -/
def renderNode (env : Env) (ctx : JsonObj) : TmplNode → Except RunError String
  | .text s => .ok s
  | .var name =>
    .ok (match objLookup ctx name with
         | none => ""
         | some j => if env.autoescape then escapeHtml (pyStr j) else pyStr j)
  | .varSafe name =>
    .ok (match objLookup ctx name with
         | none => ""
         | some j => pyStr j)
  | .raiseError => .error .templateRenderError

/-- Rendering of a node sequence, concatenating the pieces. -/
def renderNodes (env : Env) (ctx : JsonObj) : List TmplNode → Except RunError String
  | [] => .ok ""
  | n :: rest => do
    let s ← renderNode env ctx n
    let r ← renderNodes env ctx rest
    .ok (s ++ r)

/-- Renders a template with the given context (`render_template`). -/
def render_template (env : Env) (template : Tmpl) (context : JsonObj) :
    Except RunError String :=
  renderNodes env context template

/-! Data augmentation, from `main` lines 68-75. -/

/-- One social-link entry (loop body, lines 72-75): a dict containing
`svg_path` gets the referenced file's text stored under `svg_data`
(`FileNotFoundError` when the file is absent, `TypeError` when the path is
not a string, as `Path(...)` raises); anything else is left unchanged. -/
def augmentLink (fs : FS) (j : Json) : Except RunError Json :=
  match j with
  | .obj kvs =>
    match objLookup kvs "svg_path" with
    | none => .ok j
    | some (.str p) =>
      match fs p with
      | none => .error (.notFound p)
      | some txt => .ok (.obj (objSet kvs "svg_data" (.str txt)))
    | some _ => .error .typeError
  | _ => .ok j

/-- The loop over the entries, in order; the first raised condition aborts. -/
def augmentList (fs : FS) : JsonList → Except RunError JsonList
  | .nil => .ok .nil
  | .cons x tl => do
    let x' ← augmentLink fs x
    let tl' ← augmentList fs tl
    .ok (.cons x' tl')

/-- The `for link in data["social_links"]` iteration on the value found
under the key: lists iterate their elements; strings iterate characters and
dicts iterate keys, none of which is a dict, so both are no-ops; the other
values are not iterable (`TypeError`). -/
def augmentSocial (fs : FS) (v : Json) : Except RunError Json :=
  match v with
  | .arr xs => (augmentList fs xs).map .arr
  | .str _ => .ok v
  | .obj _ => .ok v
  | _ => .error .typeError

/-- The augmentation in `main` (lines 68-75): set `current_year` to the
run-time UTC year, then, when `social_links` is present, process its
entries. -/
def augment (fs : FS) (year : Int) (doc : JsonObj) : Except RunError JsonObj :=
  let doc1 := objSet doc "current_year" (.num year)
  match objLookup doc1 "social_links" with
  | none => .ok doc1
  | some v => (augmentSocial fs v).map (fun v' => objSet doc1 "social_links" v')

/-! The orchestrator `main` (lines 65-87). -/

/-- The run: load `portfolio.json` (a non-dict document fails at the
`data["current_year"]` assignment), augment, set up the engine, load both
templates, render both, and only then write both outputs. The result is the
ordered list of (path, contents) writes; a raised condition aborts the run
with nothing written, since every fallible step precedes the first write. -/
def mainRun (fs : FS) (tmpls : String → Option Tmpl) (year : Int) :
    Except RunError (List (String × String)) := do
  let data ← load_json fs "portfolio.json"
  let doc ← match data with
    | .obj kvs => Except.ok kvs
    | _ => Except.error RunError.typeError
  let doc' ← augment fs year doc
  let env := setup_jinja_env tmpls
  let index_template ← load_template env "index_template.html"
  let resume_template ← load_template env "resume_template.html"
  let html_output ← render_template env index_template doc'
  let resume_output ← render_template env resume_template doc'
  Except.ok [("index.html", html_output), ("resume.html", resume_output)]

/-- The writes a run performs: both outputs on success, none otherwise. -/
def mainWrites (fs : FS) (tmpls : String → Option Tmpl) (year : Int) :
    List (String × String) :=
  match mainRun fs tmpls year with
  | .ok ws => ws
  | .error _ => []

/-- Applying a list of writes to an output file system. -/
def applyWrites (out : FS) (ws : List (String × String)) : FS :=
  ws.foldl (fun f pc => fun q => if q = pc.1 then some pc.2 else f q) out

/-! Concrete fixtures for evaluated checks: the spec's worked example
(section 8): entry 0 carries `svg_path`, entry 1 does not. -/

/-- The worked example's `social_links` entries. -/
def exLinks : JsonList :=
  .cons (.obj (.cons "svg_path" (.str "icon.svg") .nil))
    (.cons (.obj (.cons "name" (.str "no-icon") .nil)) .nil)

/-- The worked example's portfolio document. -/
def exDoc : JsonObj := .cons "social_links" (.arr exLinks) .nil

/-- A file system holding the worked example's input and icon. -/
def exFS : FS := fun p =>
  if p = "portfolio.json" then some (serialize (.obj exDoc))
  else if p = "icon.svg" then some "<svg>A</svg>"
  else none

/-- The same file system with the icon file missing. -/
def exFSMissing : FS := fun p =>
  if p = "portfolio.json" then some (serialize (.obj exDoc)) else none

/-- A template store with both templates present. -/
def exTmpls : String → Option Tmpl := fun n =>
  if n = "index_template.html" then some [TmplNode.var "name"]
  else if n = "resume_template.html" then some [TmplNode.text "r"]
  else none

/-! Helper lemmas: dict operations. -/

theorem objLookup_objSet_self (o : JsonObj) (k : String) (v : Json) :
    objLookup (objSet o k v) k = some v := by
  match o with
  | .nil => simp [objSet, objLookup]
  | .cons k' v' tl =>
    by_cases h : k' = k
    · simp [objSet, h, objLookup]
    · simp [objSet, h, objLookup, objLookup_objSet_self tl k v]

theorem objLookup_objSet_ne (o : JsonObj) (k k' : String) (v : Json)
    (h : k' ≠ k) : objLookup (objSet o k v) k' = objLookup o k' := by
  have hne : ¬ k = k' := fun e => h e.symm
  match o with
  | .nil => simp [objSet, objLookup, hne]
  | .cons k0 v0 tl =>
    by_cases h0 : k0 = k
    · subst h0
      simp [objSet, objLookup, hne]
    · by_cases h1 : k0 = k' <;>
        simp [objSet, h0, objLookup, h1, h, objLookup_objSet_ne tl k k' v h]

theorem keysOf_objSet (o : JsonObj) (k : String) (v : Json) :
    keysOf (objSet o k v) =
      if hasKey o k then keysOf o else keysOf o ++ [k] := by
  match o with
  | .nil => simp [objSet, keysOf, hasKey, objLookup]
  | .cons k0 v0 tl =>
    by_cases h0 : k0 = k
    · simp [objSet, h0, keysOf, hasKey, objLookup]
    · simp [objSet, h0, keysOf, hasKey, objLookup, keysOf_objSet tl k v, hasKey]
      by_cases hm : (objLookup tl k).isSome <;> simp [hm]

/-! Helper lemmas: decimal digits and numbers. -/

theorem digitChar_toNat (d : Nat) (h : d < 10) :
    (digitChar d).toNat = 48 + d := by
  interval_cases d <;> decide

theorem digitChar_isDigit (d : Nat) (h : d < 10) :
    (digitChar d).isDigit = true := by
  interval_cases d <;> decide

theorem isDigit_range (c : Char) (h : c.isDigit = true) :
    48 ≤ c.toNat ∧ c.toNat ≤ 57 := by
  simp [Char.isDigit] at h
  rcases h with ⟨h1, h2⟩
  constructor
  · exact h1
  · exact h2

theorem natToChars_ne_nil (n : Nat) : natToChars n ≠ [] := by
  unfold natToChars
  split
  · simp
  · simp

theorem natToChars_digits (n : Nat) :
    ∀ c ∈ natToChars n, c.isDigit = true := by
  unfold natToChars
  split
  · next h =>
    intro c hc
    simp at hc
    subst hc
    exact digitChar_isDigit n h
  · next h =>
    intro c hc
    simp at hc
    rcases hc with hc | hc
    · exact natToChars_digits (n / 10) c hc
    · subst hc
      exact digitChar_isDigit (n % 10) (Nat.mod_lt n (by omega))
termination_by n
decreasing_by exact Nat.div_lt_self (by omega) (by omega)

theorem charsToNat_append_singleton (l : List Char) (c : Char) :
    charsToNat (l ++ [c]) = charsToNat l * 10 + (c.toNat - 48) := by
  simp [charsToNat, List.foldl_append]

theorem charsToNat_natToChars (n : Nat) :
    charsToNat (natToChars n) = n := by
  unfold natToChars
  split
  · next h =>
    simp [charsToNat, digitChar_toNat n h]
  · next h =>
    rw [charsToNat_append_singleton, charsToNat_natToChars (n / 10),
      digitChar_toNat (n % 10) (Nat.mod_lt n (by omega))]
    omega
termination_by n
decreasing_by exact Nat.div_lt_self (by omega) (by omega)

/-! Helper lemmas: digit runs in the input. -/

theorem takeWhile_digits (l r : List Char)
    (hl : ∀ c ∈ l, c.isDigit = true) (hr : delimOk r) :
    (l ++ r).takeWhile (fun c => c.isDigit) = l ∧
      (l ++ r).dropWhile (fun c => c.isDigit) = r := by
  induction l with
  | nil =>
    simp
    cases r with
    | nil => simp
    | cons c cs =>
      simp [delimOk] at hr
      simp [List.takeWhile, List.dropWhile, hr]
  | cons c cs ih =>
    have hc : c.isDigit = true := hl c (by simp)
    have hcs : ∀ c' ∈ cs, c'.isDigit = true := fun c' h' => hl c' (by simp [h'])
    rcases ih hcs with ⟨h1, h2⟩
    simp [List.takeWhile, List.dropWhile, hc, h1, h2]

theorem parseDigits_ser (l r : List Char) (hne : l ≠ [])
    (hl : ∀ c ∈ l, c.isDigit = true) (hr : delimOk r) :
    parseDigits (l ++ r) = some (charsToNat l, r) := by
  rcases takeWhile_digits l r hl hr with ⟨h1, h2⟩
  simp [parseDigits, h1, h2, hne]

theorem skipWs_cons_not_ws (c : Char) (l : List Char) (h : isWs c = false) :
    skipWs (c :: l) = c :: l := by
  simp [skipWs, h]

theorem hexVal_hexChar (d : Nat) (h : d < 16) : hexVal (hexChar d) = some d := by
  interval_cases d <;> decide

theorem mk_data (s : String) : String.mk s.data = s := by
  cases s
  rfl

theorem char_ne_of_isDigit (c : Char) (h : c.isDigit = true) (d : Char)
    (hd : d.isDigit = false) : c ≠ d := by
  intro e
  subst e
  rw [h] at hd
  cases hd

theorem isWs_eq_false_of_isDigit (c : Char) (h : c.isDigit = true) :
    isWs c = false := by
  have h1 := char_ne_of_isDigit c h ' ' (by decide)
  have h2 := char_ne_of_isDigit c h '\n' (by decide)
  have h3 := char_ne_of_isDigit c h '\t' (by decide)
  have h4 := char_ne_of_isDigit c h '\r' (by decide)
  simp [isWs, h1, h2, h3, h4]

theorem parseStringBody_esc (s : List Char) (rest : List Char) :
    parseStringBody (escChars s ++ '"' :: rest) = some (s, rest) := by
  match s with
  | [] =>
    simp only [escChars, List.nil_append]
    rw [parseStringBody.eq_def]
    simp
  | c :: cs =>
    have ih := parseStringBody_esc cs rest
    by_cases h1 : c = '"'
    · subst h1
      simp only [escChars, escChar, if_pos rfl, List.cons_append, List.append_assoc,
        List.nil_append]
      rw [parseStringBody.eq_def]
      simp [ih]
    · by_cases h2 : c = '\\'
      · subst h2
        simp only [escChars, escChar, List.cons_append, List.append_assoc, List.nil_append]
        rw [parseStringBody.eq_def]
        simp [ih]
      · by_cases h3 : c.toNat < 32
        · simp only [escChars, escChar, h1, h2, h3, if_true, if_false, ite_true, ite_false,
            List.cons_append, List.append_assoc, List.nil_append]
          rw [parseStringBody.eq_def]
          have h0 : hexVal '0' = some 0 := by decide
          simp only [h0, hexVal_hexChar (c.toNat / 16) (by omega),
            hexVal_hexChar (c.toNat % 16) (by omega)]
          simp [ih]
          have hn : c.toNat / 16 * 16 + c.toNat % 16 = c.toNat := by omega
          rw [hn]
          exact ⟨Or.inl (by omega), Char.ofNat_toNat c⟩
        · simp only [escChars, escChar, h1, h2, h3, ite_true, ite_false, if_neg,
            List.cons_append, List.append_assoc, List.nil_append]
          rw [parseStringBody.eq_def]
          simp [h1, h2, h3, ih]

theorem natToChars_head_digit (n : Nat) :
    ∃ c cs, natToChars n = c :: cs ∧ c.isDigit = true := by
  cases h : natToChars n with
  | nil => exact absurd h (natToChars_ne_nil n)
  | cons c cs =>
    refine ⟨c, cs, rfl, ?_⟩
    exact natToChars_digits n c (by rw [h]; simp)

theorem serInt_head (n : Int) :
    ∃ c cs, serInt n = c :: cs ∧ isWs c = false ∧ c ≠ ']' ∧ c ≠ '}' ∧ c ≠ ',' := by
  unfold serInt
  split
  · exact ⟨'-', _, rfl, by decide, by decide, by decide, by decide⟩
  · rcases natToChars_head_digit n.toNat with ⟨c, cs, hl, hd⟩
    refine ⟨c, cs, hl, isWs_eq_false_of_isDigit c hd, ?_, ?_, ?_⟩
    · exact char_ne_of_isDigit c hd ']' (by decide)
    · exact char_ne_of_isDigit c hd '}' (by decide)
    · exact char_ne_of_isDigit c hd ',' (by decide)

theorem serV_head (j : Json) :
    ∃ c cs, serV j = c :: cs ∧ isWs c = false ∧ c ≠ ']' ∧ c ≠ '}' ∧ c ≠ ',' := by
  match j with
  | .null => exact ⟨'n', _, rfl, by decide, by decide, by decide, by decide⟩
  | .bool true => exact ⟨'t', _, rfl, by decide, by decide, by decide, by decide⟩
  | .bool false => exact ⟨'f', _, rfl, by decide, by decide, by decide, by decide⟩
  | .num n => exact serInt_head n
  | .str s => exact ⟨'"', _, rfl, by decide, by decide, by decide, by decide⟩
  | .arr xs => exact ⟨'[', _, rfl, by decide, by decide, by decide, by decide⟩
  | .obj kvs => exact ⟨'{', _, rfl, by decide, by decide, by decide, by decide⟩

theorem serV_length_pos (j : Json) : 1 ≤ (serV j).length := by
  rcases serV_head j with ⟨c, cs, hl, _⟩
  rw [hl]
  simp


theorem needV_pos (j : Json) : 1 ≤ needV j := by
  match j with
  | .null => simp [needV]
  | .bool b => simp [needV]
  | .num n => simp [needV]
  | .str s => simp [needV]
  | .arr xs => simp [needV]
  | .obj kvs => simp [needV]

mutual
theorem needV_le (j : Json) : needV j ≤ (serV j).length := by
  match j with
  | .null => simp [needV, serV]
  | .bool b => cases b <;> simp [needV, serV]
  | .num n =>
    rcases serInt_head n with ⟨c, cs, hl, _⟩
    simp [needV, serV, hl]
  | .str s => simp [needV, serV]
  | .arr xs =>
    have h := needE_le xs
    simp [needV, serV]
    omega
  | .obj kvs =>
    have h := needM_le kvs
    simp [needV, serV]
    omega
theorem needE_le (xs : JsonList) : needE xs ≤ (serElems xs).length + 1 := by
  match xs with
  | .nil => simp [needE]
  | .cons x .nil =>
    have h := needV_le x
    simp [needE, serElems]
    omega
  | .cons x (.cons y tl) =>
    have h1 := needV_le x
    have h2 := needE_le (.cons y tl)
    have h3 := serV_length_pos x
    simp [needE, serElems] at h2 ⊢
    omega
theorem needM_le (kvs : JsonObj) : needM kvs ≤ (serMembers kvs).length + 1 := by
  match kvs with
  | .nil => simp [needM]
  | .cons k v .nil =>
    have h := needV_le v
    simp [needM, serMembers]
    omega
  | .cons k v (.cons k' v' tl) =>
    have h1 := needV_le v
    have h2 := needM_le (.cons k' v' tl)
    simp [needM, serMembers] at h2 ⊢
    omega
end

example (f : Nat) (rest : List Char) :
    parseValue (f + 1) ('n' :: 'u' :: 'l' :: 'l' :: rest) = some (.null, rest) := by
  simp [parseValue, skipWs, isWs]

theorem not_ws_chars (c : Char) (h : isWs c = false) :
    ¬ c = ' ' ∧ ¬ c = '\n' ∧ ¬ c = '\t' ∧ ¬ c = '\r' := by
  simp [isWs] at h
  exact ⟨h.1.1.1, h.1.1.2, h.1.2, h.2⟩

theorem serElems_head (x : Json) (tl : JsonList) :
    ∃ c cs, serElems (.cons x tl) = c :: cs ∧ isWs c = false ∧ c ≠ ']' := by
  rcases serV_head x with ⟨c, cs, hl, hws, hbr, _, _⟩
  match tl with
  | .nil => exact ⟨c, cs, by simp [serElems, hl], hws, hbr⟩
  | .cons y tl' =>
    exact ⟨c, cs ++ ',' :: serElems (.cons y tl'), by simp [serElems, hl], hws, hbr⟩

theorem serMembers_head (k : String) (v : Json) (tl : JsonObj) :
    ∃ cs, serMembers (.cons k v tl) = '"' :: cs := by
  match tl with
  | .nil => exact ⟨_, rfl⟩
  | .cons k' v' tl' => exact ⟨_, rfl⟩

mutual
theorem parseValue_ser (fuel : Nat) (j : Json) (rest : List Char)
    (hf : needV j ≤ fuel) (hr : delimOk rest) :
    parseValue fuel (serV j ++ rest) = some (j, rest) := by
  match fuel, j with
  | 0, j => exact absurd hf (by have := needV_pos j; omega)
  | f + 1, .null => simp [serV, parseValue, skipWs, isWs]
  | f + 1, .bool true => simp [serV, parseValue, skipWs, isWs]
  | f + 1, .bool false => simp [serV, parseValue, skipWs, isWs]
  | f + 1, .num n =>
    by_cases hn : n < 0
    · simp only [serV, serInt, if_pos hn, List.cons_append]
      simp [parseValue, skipWs, isWs]
      rw [parseDigits_ser _ rest (natToChars_ne_nil _) (natToChars_digits _) hr]
      simp only [charsToNat_natToChars, Option.map_some]
      have hab : ((n.natAbs : Nat) : Int) = -n := Int.ofNat_natAbs_of_nonpos (le_of_lt hn)
      exact ⟨n.natAbs, rfl, by rw [hab]; exact neg_neg n⟩
    · rcases natToChars_head_digit n.toNat with ⟨c, cs, hl, hdig⟩
      have t0 := isWs_eq_false_of_isDigit c hdig
      have t1 := char_ne_of_isDigit c hdig 'n' (by decide)
      have t2 := char_ne_of_isDigit c hdig 't' (by decide)
      have t3 := char_ne_of_isDigit c hdig 'f' (by decide)
      have t4 := char_ne_of_isDigit c hdig '"' (by decide)
      have t5 := char_ne_of_isDigit c hdig '[' (by decide)
      have t6 := char_ne_of_isDigit c hdig '{' (by decide)
      have t7 := char_ne_of_isDigit c hdig '-' (by decide)
      simp only [serV, serInt, if_neg hn, hl, List.cons_append]
      have hres : c :: (cs ++ rest) = natToChars n.toNat ++ rest := by rw [hl]; simp
      simp only [parseValue, skipWs, t0, t1, t2, t3, t4, t5, t6, t7, hdig, if_false,
        ite_false, if_true, ite_true, Bool.false_eq_true, reduceIte]
      rw [hres, parseDigits_ser _ rest (natToChars_ne_nil _) (natToChars_digits _) hr]
      simp only [charsToNat_natToChars, Option.map_some]
      have htn : ((n.toNat : Nat) : Int) = n := Int.toNat_of_nonneg (by omega)
      simp [htn]
  | f + 1, .str s =>
    have h := parseStringBody_esc s.data rest
    simp only [serV, List.cons_append, List.append_assoc, List.nil_append]
    simp [parseValue, skipWs, isWs, h, mk_data]
  | f + 1, .arr .nil => simp [serV, serElems, parseValue, skipWs, isWs]
  | f + 1, .arr (.cons x tl) =>
    have hfe : needE (.cons x tl) ≤ f := by
      simp only [needV] at hf
      omega
    rcases serElems_head x tl with ⟨c, cs, hl, hws, hbr⟩
    have h := parseElems_ser f (.cons x tl) rest (by intro e; cases e) hfe
    simp only [serV, List.cons_append, List.append_assoc, List.nil_append]
    rw [hl] at h
    simp only [List.cons_append] at h
    have hL : skipWs (c :: (cs ++ ']' :: rest)) = c :: (cs ++ ']' :: rest) :=
      skipWs_cons_not_ws c _ hws
    simp only [parseValue, skipWs, isWs]
    simp [hl, hL, hbr, h]
  | f + 1, .obj .nil => simp [serV, serMembers, parseValue, skipWs, isWs]
  | f + 1, .obj (.cons k v tl) =>
    have hfm : needM (.cons k v tl) ≤ f := by
      simp only [needV] at hf
      omega
    rcases serMembers_head k v tl with ⟨cs, hl⟩
    have h := parseMembers_ser f (.cons k v tl) rest (by intro e; cases e) hfm
    rw [hl] at h
    simp only [List.cons_append] at h
    have hq : skipWs ('"' :: (cs ++ '}' :: rest)) = '"' :: (cs ++ '}' :: rest) :=
      skipWs_cons_not_ws _ _ (by decide)
    simp only [serV, List.cons_append, List.append_assoc, List.nil_append]
    simp only [parseValue, skipWs, isWs]
    simp [hl, hq, h]
theorem parseElems_ser (fuel : Nat) (xs : JsonList) (rest : List Char)
    (hne : xs ≠ .nil) (hf : needE xs ≤ fuel) :
    parseElems fuel (serElems xs ++ ']' :: rest) = some (xs, rest) := by
  match fuel, xs with
  | fuel, .nil => exact absurd rfl hne
  | 0, .cons x tl =>
    exact absurd hf (by simp [needE])
  | f + 1, .cons x tl =>
    have hfx : needV x ≤ f := by simp [needE] at hf; omega
    match tl with
    | .nil =>
      have h := parseValue_ser f x (']' :: rest) hfx (by simp [delimOk])
      simp only [serElems]
      simp [parseElems, h, skipWs, isWs]
    | .cons y tl' =>
      have hft : needE (.cons y tl') ≤ f := by simp [needE] at hf ⊢; omega
      have h := parseValue_ser f x (',' :: (serElems (.cons y tl') ++ ']' :: rest)) hfx
        (by simp [delimOk])
      have h2 := parseElems_ser f (.cons y tl') rest (by intro e; cases e) hft
      rcases serElems_head y tl' with ⟨c, cs, hl, hws, hbr⟩
      rw [hl] at h h2
      simp only [List.cons_append] at h h2
      have hq : skipWs (c :: (cs ++ ']' :: rest)) = c :: (cs ++ ']' :: rest) :=
        skipWs_cons_not_ws c _ hws
      rcases not_ws_chars c hws with ⟨w1, w2, w3, w4⟩
      simp only [serElems, List.cons_append, List.append_assoc, List.nil_append]
      simp [parseElems, h, skipWs, isWs, hl, hq, h2, w1, w2, w3, w4]
theorem parseMembers_ser (fuel : Nat) (kvs : JsonObj) (rest : List Char)
    (hne : kvs ≠ .nil) (hf : needM kvs ≤ fuel) :
    parseMembers fuel (serMembers kvs ++ '}' :: rest) = some (kvs, rest) := by
  match fuel, kvs with
  | fuel, .nil => exact absurd rfl hne
  | 0, .cons k v tl =>
    exact absurd hf (by simp [needM])
  | f + 1, .cons k v tl =>
    have hfv : needV v ≤ f := by simp [needM] at hf; omega
    rcases serV_head v with ⟨c, cs, hl, hws, _, _, _⟩
    match tl with
    | .nil =>
      have hs := parseStringBody_esc k.data (':' :: (serV v ++ '}' :: rest))
      have h := parseValue_ser f v ('}' :: rest) hfv (by simp [delimOk])
      rw [hl] at h hs
      simp only [List.cons_append] at h hs
      have hq : skipWs (c :: (cs ++ '}' :: rest)) = c :: (cs ++ '}' :: rest) :=
        skipWs_cons_not_ws c _ hws
      rcases not_ws_chars c hws with ⟨w1, w2, w3, w4⟩
      simp only [serMembers, List.cons_append, List.append_assoc, List.nil_append]
      simp [parseMembers, hs, skipWs, isWs, hl, hq, h, mk_data, w1, w2, w3, w4]
    | .cons k' v' tl' =>
      have hft : needM (.cons k' v' tl') ≤ f := by simp [needM] at hf ⊢; omega
      have hs := parseStringBody_esc k.data
        (':' :: (serV v ++ ',' :: (serMembers (.cons k' v' tl') ++ '}' :: rest)))
      have h := parseValue_ser f v
        (',' :: (serMembers (.cons k' v' tl') ++ '}' :: rest)) hfv (by simp [delimOk])
      have h2 := parseMembers_ser f (.cons k' v' tl') rest (by intro e; cases e) hft
      rcases serMembers_head k' v' tl' with ⟨cs2, hl2⟩
      rw [hl] at h hs
      rw [hl2] at h2 hs h
      simp only [List.cons_append] at h h2 hs
      rcases not_ws_chars c hws with ⟨w1, w2, w3, w4⟩
      simp only [serMembers, List.cons_append, List.append_assoc, List.nil_append]
      simp [parseMembers, hs, skipWs, isWs, hl, hl2, h, h2, mk_data, w1, w2, w3, w4]
end

theorem parseJson_serialize (j : Json) : parseJson (serialize j) = some j := by
  have hfuel : needV j ≤ (serV j).length + 1 := by
    have := needV_le j
    omega
  have h := parseValue_ser ((serV j).length + 1) j [] hfuel (by simp [delimOk])
  rw [List.append_nil] at h
  simp [parseJson, serialize, h, skipWs]

/-! Helper lemmas: the augmentation. -/

theorem augment_year_lookup (fs : FS) (year : Int) (doc doc' : JsonObj)
    (h : augment fs year doc = .ok doc') :
    objLookup doc' "current_year" = some (.num year) := by
  unfold augment at h
  cases hsl : objLookup (objSet doc "current_year" (.num year)) "social_links" with
  | none =>
    simp only [hsl] at h
    cases h
    exact objLookup_objSet_self doc "current_year" (.num year)
  | some v =>
    simp only [hsl] at h
    cases haug : augmentSocial fs v with
    | error e => simp [haug, Except.map] at h
    | ok v' =>
      simp only [haug, Except.map] at h
      cases h
      rw [objLookup_objSet_ne _ "social_links" "current_year" _ (by decide)]
      exact objLookup_objSet_self doc "current_year" (.num year)

theorem augmentList_forall2 (fs : FS) (xs xs' : JsonList)
    (h : augmentList fs xs = .ok xs') :
    List.Forall₂ (fun a b => augmentLink fs a = Except.ok b)
      xs.toList xs'.toList := by
  match xs with
  | .nil =>
    unfold augmentList at h
    cases h
    exact List.Forall₂.nil
  | .cons x tl =>
    cases hx : augmentLink fs x with
    | error e => rw [augmentList, hx] at h; cases h
    | ok x' =>
      cases ht : augmentList fs tl with
      | error e => rw [augmentList, hx, ht] at h; cases h  -- placeholder shape
      | ok tl' =>
        rw [augmentList, hx, ht] at h
        cases h
        exact List.Forall₂.cons hx (augmentList_forall2 fs tl tl' ht)

theorem augmentLink_missing (fs : FS) (kvs : JsonObj) (p : String)
    (hp : objLookup kvs "svg_path" = some (.str p)) (hfs : fs p = none) :
    augmentLink fs (.obj kvs) = .error (.notFound p) := by
  simp [augmentLink, hp, hfs]

theorem augmentLink_error_cases (fs : FS) (j : Json) (e : RunError)
    (h : augmentLink fs j = .error e) :
    ∃ kvs v, j = .obj kvs ∧ objLookup kvs "svg_path" = some v ∧
      ((∃ p, v = .str p ∧ fs p = none ∧ e = .notFound p) ∨ ∀ p, v ≠ .str p) := by
  match j with
  | .null => cases h
  | .bool b => cases h
  | .num n => cases h
  | .str s => cases h
  | .arr xs => cases h
  | .obj kvs =>
    cases hp : objLookup kvs "svg_path" with
    | none => rw [augmentLink, hp] at h; cases h
    | some v =>
      match v with
      | .str p =>
        cases hfs : fs p with
        | none =>
          rw [augmentLink, hp] at h
          simp [hfs] at h
          exact ⟨kvs, .str p, rfl, hp, Or.inl ⟨p, rfl, hfs, h.symm⟩⟩
        | some txt => rw [augmentLink, hp] at h; simp [hfs] at h
      | .null => exact ⟨kvs, .null, rfl, hp, Or.inr (by intro p hc; cases hc)⟩
      | .bool b => exact ⟨kvs, .bool b, rfl, hp, Or.inr (by intro p hc; cases hc)⟩
      | .num n => exact ⟨kvs, .num n, rfl, hp, Or.inr (by intro p hc; cases hc)⟩
      | .arr xs => exact ⟨kvs, .arr xs, rfl, hp, Or.inr (by intro p hc; cases hc)⟩
      | .obj o => exact ⟨kvs, .obj o, rfl, hp, Or.inr (by intro p hc; cases hc)⟩

theorem augmentList_aborts (fs : FS) (xs : JsonList)
    (hstr : ∀ j ∈ xs.toList, ∀ kvs, j = .obj kvs →
      ∀ v, objLookup kvs "svg_path" = some v → ∃ p, v = Json.str p)
    (x : Json) (hx : x ∈ xs.toList) (kvs : JsonObj) (p : String)
    (hxo : x = .obj kvs) (hp : objLookup kvs "svg_path" = some (.str p))
    (hfs : fs p = none) :
    ∃ q, augmentList fs xs = .error (.notFound q) ∧ fs q = none := by
  match xs with
  | .nil => simp [JsonList.toList] at hx
  | .cons y tl =>
    cases hy : augmentLink fs y with
    | error e =>
      rcases augmentLink_error_cases fs y e hy with ⟨kvs', v, hyo, hv, hcase⟩
      rcases hcase with ⟨q, hvs, hqn, he⟩ | hnv
      · subst he
        exact ⟨q, by simp [augmentList, hy, bind, Except.bind], hqn⟩
      · rcases hstr y (by simp [JsonList.toList]) kvs' hyo v hv with ⟨p', hp'⟩
        exact absurd hp' (hnv p')
    | ok y' =>
      have hxtl : x ∈ tl.toList := by
        rcases List.mem_cons.mp (by simpa [JsonList.toList] using hx) with he | hm
        · subst he
          rw [hxo, augmentLink_missing fs kvs p hp hfs] at hy
          cases hy
        · exact hm
      have hstr' : ∀ j ∈ tl.toList, ∀ kvs, j = .obj kvs →
          ∀ v, objLookup kvs "svg_path" = some v → ∃ p, v = Json.str p :=
        fun j hj => hstr j (by simp [JsonList.toList, hj])
      rcases augmentList_aborts fs tl hstr' x hxtl kvs p hxo hp hfs with ⟨q, hq, hqn⟩
      exact ⟨q, by simp [augmentList, hy, hq, bind, Except.bind], hqn⟩

theorem augment_social_arr (fs : FS) (year : Int) (doc : JsonObj) (xs : JsonList)
    (doc' : JsonObj) (hsl : objLookup doc "social_links" = some (.arr xs))
    (h : augment fs year doc = .ok doc') :
    ∃ xs', objLookup doc' "social_links" = some (.arr xs') ∧
      List.Forall₂ (fun a b => augmentLink fs a = Except.ok b)
        xs.toList xs'.toList := by
  unfold augment at h
  have hsl1 : objLookup (objSet doc "current_year" (.num year)) "social_links"
      = some (.arr xs) := by
    rw [objLookup_objSet_ne _ _ _ _ (by decide)]
    exact hsl
  simp only [hsl1] at h
  cases hal : augmentList fs xs with
  | error e => simp [augmentSocial, hal, Except.map] at h
  | ok xs' =>
    simp only [augmentSocial, hal, Except.map] at h
    cases h
    exact ⟨xs', objLookup_objSet_self _ _ _, augmentList_forall2 fs xs xs' hal⟩

theorem augment_aborts (fs : FS) (year : Int) (doc : JsonObj) (xs : JsonList)
    (hsl : objLookup doc "social_links" = some (.arr xs))
    (hstr : ∀ j ∈ xs.toList, ∀ kvs, j = .obj kvs →
      ∀ v, objLookup kvs "svg_path" = some v → ∃ p, v = Json.str p)
    (x : Json) (hx : x ∈ xs.toList) (kvs : JsonObj) (p : String)
    (hxo : x = .obj kvs) (hp : objLookup kvs "svg_path" = some (.str p))
    (hfs : fs p = none) :
    ∃ q, augment fs year doc = .error (.notFound q) ∧ fs q = none := by
  unfold augment
  have hsl1 : objLookup (objSet doc "current_year" (.num year)) "social_links"
      = some (.arr xs) := by
    rw [objLookup_objSet_ne _ _ _ _ (by decide)]
    exact hsl
  rcases augmentList_aborts fs xs hstr x hx kvs p hxo hp hfs with ⟨q, hq, hqn⟩
  refine ⟨q, ?_, hqn⟩
  simp [hsl1, augmentSocial, hq, Except.map]

theorem mainRun_augment_error (fs : FS) (tmpls : String → Option Tmpl) (year : Int)
    (doc : JsonObj) (e : RunError)
    (hload : load_json fs "portfolio.json" = .ok (.obj doc))
    (haug : augment fs year doc = .error e) :
    mainRun fs tmpls year = .error e := by
  unfold mainRun
  rw [hload]
  simp [bind, Except.bind, haug]

theorem mainRun_render_stage (fs : FS) (tmpls : String → Option Tmpl) (year : Int)
    (doc doc' : JsonObj)
    (hload : load_json fs "portfolio.json" = .ok (.obj doc))
    (haug : augment fs year doc = .ok doc') :
    mainRun fs tmpls year = (do
      let it ← load_template (setup_jinja_env tmpls) "index_template.html"
      let rt ← load_template (setup_jinja_env tmpls) "resume_template.html"
      let ho ← render_template (setup_jinja_env tmpls) it doc'
      let ro ← render_template (setup_jinja_env tmpls) rt doc'
      Except.ok [("index.html", ho), ("resume.html", ro)]) := by
  unfold mainRun
  rw [hload]
  simp [bind, Except.bind, haug]

/-- C2: augmentation sets `current_year` on the document to the run-time
UTC year (the `year` parameter, which is independent of the input document),
overwriting any prior value of that key: whatever document the augmentation
succeeds on, the result holds exactly `year` under `current_year`. -/
theorem c2_current_year_set (fs : FS) (year : Int) (doc doc' : JsonObj)
    (h : augment fs year doc = .ok doc') :
    objLookup doc' "current_year" = some (Json.num year) :=
  augment_year_lookup fs year doc doc' h

/-- C2 witness: a concrete run on the worked example. -/
theorem c2_current_year_set_witness :
    ∃ doc', augment exFS 2026 exDoc = .ok doc' ∧
      objLookup doc' "current_year" = some (Json.num 2026) := by
  refine ⟨_, rfl, c2_current_year_set exFS 2026 exDoc _ rfl⟩

/-- C4: on a document without `social_links`, augmentation succeeds and only
sets `current_year`: the result is exactly the input with `current_year`
assigned; every other key's value is unchanged and the key list is the
input's, extended by `current_year` only when it was absent. -/
theorem c4_no_social_links_frame (fs : FS) (year : Int) (doc : JsonObj)
    (hsl : objLookup doc "social_links" = none) :
    augment fs year doc = .ok (objSet doc "current_year" (.num year))
    ∧ objLookup (objSet doc "current_year" (.num year)) "current_year"
        = some (Json.num year)
    ∧ (∀ k, k ≠ "current_year" →
        objLookup (objSet doc "current_year" (.num year)) k = objLookup doc k)
    ∧ keysOf (objSet doc "current_year" (.num year))
        = (if hasKey doc "current_year" then keysOf doc
           else keysOf doc ++ ["current_year"]) := by
  refine ⟨?_, objLookup_objSet_self _ _ _,
    fun k hk => objLookup_objSet_ne _ _ _ _ hk, keysOf_objSet _ _ _⟩
  unfold augment
  have h : objLookup (objSet doc "current_year" (.num year)) "social_links" = none := by
    rw [objLookup_objSet_ne _ _ _ _ (by decide)]
    exact hsl
  simp [h]

/-- C4 witness: a concrete document without `social_links`. -/
theorem c4_no_social_links_frame_witness :
    augment exFS 2026 (JsonObj.cons "name" (Json.str "x") JsonObj.nil)
      = .ok (objSet (JsonObj.cons "name" (Json.str "x") JsonObj.nil)
          "current_year" (.num 2026))
    ∧ objLookup (objSet (JsonObj.cons "name" (Json.str "x") JsonObj.nil)
          "current_year" (.num 2026)) "name" = some (Json.str "x") := by
  have h := c4_no_social_links_frame exFS 2026
    (JsonObj.cons "name" (Json.str "x") JsonObj.nil) (by rfl)
  exact ⟨h.1, by rw [h.2.2.1 "name" (by decide)]; rfl⟩

/-- C5: loading round-trips serialization: parsing the serialization of any
JSON value yields that value back, and `load_json` on a file holding the
serialization of a mapping returns that mapping. -/
theorem c5_load_roundtrip :
    (∀ j : Json, parseJson (serialize j) = some j)
    ∧ (∀ fs : FS, ∀ path : String, ∀ j : Json,
        fs path = some (serialize j) → load_json fs path = .ok j) := by
  refine ⟨parseJson_serialize, fun fs path j h => ?_⟩
  simp [load_json, h, parseJson_serialize]

/-- C5 witness: the worked example's document loads back. -/
theorem c5_load_roundtrip_witness :
    load_json exFS "portfolio.json" = .ok (.obj exDoc) :=
  c5_load_roundtrip.2 exFS "portfolio.json" (.obj exDoc) rfl

/-- C6: `load_json` raises `NotFound` exactly when the path is absent,
`MalformedInput` exactly when the contents do not parse as JSON, and
otherwise returns the parsed value. -/
theorem c6_load_error_conditions (fs : FS) (path : String) :
    ((∃ q, load_json fs path = .error (.notFound q)) ↔ fs path = none)
    ∧ (load_json fs path = .error .malformedInput
        ↔ ∃ s, fs path = some s ∧ parseJson s = none)
    ∧ (∀ j, load_json fs path = .ok j
        ↔ ∃ s, fs path = some s ∧ parseJson s = some j) := by
  cases hf : fs path with
  | none => simp [load_json, hf]
  | some s =>
    cases hp : parseJson s with
    | none => simp [load_json, hf, hp]
    | some j => simp [load_json, hf, hp]

/-- C6 witness: the three conditions at concrete inputs: a missing path, a
file that is not JSON, and the worked example. -/
theorem c6_load_error_conditions_witness :
    load_json exFS "absent.json" = .error (.notFound "absent.json")
    ∧ load_json (fun _ => some "not json") "x" = .error .malformedInput
    ∧ load_json exFS "portfolio.json" = .ok (.obj exDoc) := by
  refine ⟨?_, ?_, ?_⟩
  · have h := (c6_load_error_conditions exFS "absent.json").1.mpr rfl
    exact rfl
  · exact (c6_load_error_conditions (fun _ => some "not json") "x").2.1.mpr
      ⟨"not json", rfl, by rfl⟩
  · exact ((c6_load_error_conditions exFS "portfolio.json").2.2 (.obj exDoc)).mpr
      ⟨serialize (.obj exDoc), rfl, parseJson_serialize _⟩

/-- C9: augmenting twice in the same year yields the same `current_year`
both times (the run-time year, so the second application changes nothing). -/
theorem c9_current_year_idempotent (fs : FS) (year : Int) (doc d1 d2 : JsonObj)
    (h1 : augment fs year doc = .ok d1) (h2 : augment fs year d1 = .ok d2) :
    objLookup d1 "current_year" = some (Json.num year)
    ∧ objLookup d2 "current_year" = objLookup d1 "current_year" := by
  have a1 := augment_year_lookup fs year doc d1 h1
  have a2 := augment_year_lookup fs year d1 d2 h2
  exact ⟨a1, by rw [a1, a2]⟩

/-- C9 witness: two successive concrete augmentations agree. -/
theorem c9_current_year_idempotent_witness :
    ∃ d1 d2, augment exFS 2026 exDoc = .ok d1 ∧ augment exFS 2026 d1 = .ok d2
      ∧ objLookup d1 "current_year" = some (Json.num 2026)
      ∧ objLookup d2 "current_year" = objLookup d1 "current_year" := by
  refine ⟨_, _, rfl, rfl, c9_current_year_idempotent exFS 2026 exDoc _ _ rfl rfl⟩

/-- C1: for each `social_links` element, augmentation: (a) on a mapping with
a string `svg_path` naming an existing file, stores that file's text under
`svg_data` on that element; (b) leaves a mapping without `svg_path`
unchanged and raises nothing; (c) leaves a non-mapping unchanged and raises
nothing; and (d) on the whole document, the processed `social_links` list is
the elementwise image of (a)-(c), in order. -/
theorem c1_social_links_svg_data (fs : FS) :
    (∀ kvs p txt, objLookup kvs "svg_path" = some (Json.str p) → fs p = some txt →
      augmentLink fs (Json.obj kvs)
        = Except.ok (Json.obj (objSet kvs "svg_data" (Json.str txt))))
    ∧ (∀ kvs, objLookup kvs "svg_path" = none →
      augmentLink fs (Json.obj kvs) = Except.ok (Json.obj kvs))
    ∧ (∀ j : Json, (∀ kvs, j ≠ Json.obj kvs) → augmentLink fs j = Except.ok j)
    ∧ (∀ year doc xs doc', objLookup doc "social_links" = some (Json.arr xs) →
      augment fs year doc = Except.ok doc' →
      ∃ xs', objLookup doc' "social_links" = some (Json.arr xs')
        ∧ List.Forall₂ (fun a b => augmentLink fs a = Except.ok b)
            xs.toList xs'.toList) := by
  refine ⟨?_, ?_, ?_, ?_⟩
  · intro kvs p txt hp ht
    simp [augmentLink, hp, ht]
  · intro kvs hp
    simp [augmentLink, hp]
  · intro j hj
    match j with
    | .null => rfl
    | .bool b => rfl
    | .num n => rfl
    | .str s => rfl
    | .arr xs => rfl
    | .obj kvs => exact absurd rfl (hj kvs)
  · intro year doc xs doc' hsl h
    exact augment_social_arr fs year doc xs doc' hsl h

/-- C1 witness: the worked example: entry 0 gains `svg_data`, entry 1 and a
non-mapping are untouched, and the document-level list is mapped in order. -/
theorem c1_social_links_svg_data_witness :
    augmentLink exFS (Json.obj (JsonObj.cons "svg_path" (Json.str "icon.svg") JsonObj.nil))
      = Except.ok (Json.obj (objSet (JsonObj.cons "svg_path" (Json.str "icon.svg") JsonObj.nil)
          "svg_data" (Json.str "<svg>A</svg>")))
    ∧ augmentLink exFS (Json.obj (JsonObj.cons "name" (Json.str "no-icon") JsonObj.nil))
      = Except.ok (Json.obj (JsonObj.cons "name" (Json.str "no-icon") JsonObj.nil))
    ∧ augmentLink exFS (Json.str "not-a-mapping") = Except.ok (Json.str "not-a-mapping")
    ∧ ∃ xs', ∃ doc', augment exFS 2026 exDoc = Except.ok doc'
        ∧ objLookup doc' "social_links" = some (Json.arr xs')
        ∧ List.Forall₂ (fun a b => augmentLink exFS a = Except.ok b)
            exLinks.toList xs'.toList := by
  refine ⟨(c1_social_links_svg_data exFS).1 _ "icon.svg" "<svg>A</svg>" rfl rfl,
    (c1_social_links_svg_data exFS).2.1 _ rfl,
    (c1_social_links_svg_data exFS).2.2.1 _ (fun kvs h => Json.noConfusion h), ?_⟩
  rcases (c1_social_links_svg_data exFS).2.2.2 2026 exDoc exLinks _ rfl rfl with ⟨xs', h1, h2⟩
  exact ⟨xs', _, rfl, h1, h2⟩

/-- C7: the engine is configured with autoescape on; an interpolated
context string is HTML-escaped in the output unless passed through the
`safe` filter; the template echoing `name` against the context binding
`name` to the text holding an ampersand renders it as the entity. -/
theorem c7_autoescape_renderer (L : String → Option Tmpl) :
    (setup_jinja_env L).autoescape = true
    ∧ (∀ ctx n s, objLookup ctx n = some (Json.str s) →
        render_template (setup_jinja_env L) [TmplNode.var n] ctx = .ok (escapeHtml s))
    ∧ (∀ ctx n s, objLookup ctx n = some (Json.str s) →
        render_template (setup_jinja_env L) [TmplNode.varSafe n] ctx = .ok s)
    ∧ render_template (setup_jinja_env L) [TmplNode.var "name"]
        (JsonObj.cons "name" (Json.str "A & B") JsonObj.nil) = .ok "A &amp; B" := by
  refine ⟨rfl, ?_, ?_, ?_⟩
  · intro ctx n s h
    simp [render_template, renderNodes, renderNode, h, setup_jinja_env, pyStr,
      bind, Except.bind]
  · intro ctx n s h
    simp [render_template, renderNodes, renderNode, h, setup_jinja_env, pyStr,
      bind, Except.bind]
  · rfl

/-- C7 witness: a concrete escaped and a concrete safe rendering. -/
theorem c7_autoescape_renderer_witness :
    render_template (setup_jinja_env exTmpls) [TmplNode.var "v"]
      (JsonObj.cons "v" (Json.str "a<b") JsonObj.nil) = .ok (escapeHtml "a<b")
    ∧ render_template (setup_jinja_env exTmpls) [TmplNode.varSafe "v"]
      (JsonObj.cons "v" (Json.str "a<b") JsonObj.nil) = .ok "a<b" :=
  ⟨(c7_autoescape_renderer exTmpls).2.1 _ "v" "a<b" rfl,
    (c7_autoescape_renderer exTmpls).2.2.1 _ "v" "a<b" rfl⟩

/-- C8: the run is a function of the input files, templates, and the
calendar year (the only time dependence), so two runs over the same inputs
on the same calendar day produce identical outcomes, in particular
byte-identical output contents. -/
theorem c8_deterministic (fs : FS) (tmpls : String → Option Tmpl) (year : Int)
    (r1 r2 : Except RunError (List (String × String)))
    (h1 : mainRun fs tmpls year = r1) (h2 : mainRun fs tmpls year = r2) :
    r1 = r2 := by
  rw [← h1, ← h2]

/-- C8 witness: two concrete runs agree. -/
theorem c8_deterministic_witness :
    mainRun exFS exTmpls 2026 = mainRun exFS exTmpls 2026 :=
  c8_deterministic exFS exTmpls 2026 (mainRun exFS exTmpls 2026)
    (mainRun exFS exTmpls 2026) rfl rfl

/-- C3: when some `social_links` entry is a mapping whose string `svg_path`
names a file absent from the file system (entries' `svg_path` values being
strings, as loaded data has), the run aborts with a `NotFound` condition for
a missing file, and performs no write — neither output file is produced. -/
theorem c3_missing_icon_aborts (fs : FS) (tmpls : String → Option Tmpl)
    (year : Int) (s : String) (doc : JsonObj) (xs : JsonList) (kvs : JsonObj)
    (p : String)
    (hfile : fs "portfolio.json" = some s)
    (hparse : parseJson s = some (.obj doc))
    (hsl : objLookup doc "social_links" = some (.arr xs))
    (hstr : ∀ j ∈ xs.toList, ∀ kvs', j = .obj kvs' →
      ∀ v, objLookup kvs' "svg_path" = some v → ∃ q, v = Json.str q)
    (hx : (Json.obj kvs) ∈ xs.toList)
    (hp : objLookup kvs "svg_path" = some (.str p))
    (hfs : fs p = none) :
    ∃ q, fs q = none ∧ mainRun fs tmpls year = .error (.notFound q)
      ∧ mainWrites fs tmpls year = [] := by
  have hload : load_json fs "portfolio.json" = .ok (.obj doc) := by
    simp [load_json, hfile, hparse]
  rcases augment_aborts fs year doc xs hsl hstr (Json.obj kvs) hx kvs p rfl hp hfs
    with ⟨q, hq, hqn⟩
  have hm := mainRun_augment_error fs tmpls year doc _ hload hq
  refine ⟨q, hqn, hm, ?_⟩
  unfold mainWrites
  rw [hm]

/-- C3 witness: the worked example with `icon.svg` removed aborts. -/
theorem c3_missing_icon_aborts_witness :
    ∃ q, exFSMissing q = none
      ∧ mainRun exFSMissing exTmpls 2026 = .error (.notFound q)
      ∧ mainWrites exFSMissing exTmpls 2026 = [] := by
  refine c3_missing_icon_aborts exFSMissing exTmpls 2026 (serialize (.obj exDoc))
    exDoc exLinks (JsonObj.cons "svg_path" (Json.str "icon.svg") JsonObj.nil)
    "icon.svg" rfl (parseJson_serialize _) rfl ?_ (by simp [exLinks, JsonList.toList])
    rfl rfl
  intro j hj kvs' hkv v hv
  simp [exLinks, JsonList.toList] at hj
  rcases hj with rfl | rfl
  · cases hkv
    simp [objLookup] at hv
    exact ⟨"icon.svg", hv.symm⟩
  · cases hkv
    simp [objLookup] at hv

theorem load_template_setup (tmpls : String → Option Tmpl) (name : String) :
    load_template (setup_jinja_env tmpls) name =
      match tmpls name with
      | none => .error (.templateNotFound name)
      | some t => .ok t := rfl

/-- C10: once the document has loaded and been augmented, a missing template
or a template whose rendering raises — for either output — aborts the run
with an error, and the run performs no write: both output files are left
untouched. -/
theorem c10_render_before_write (fs : FS) (tmpls : String → Option Tmpl)
    (year : Int) (doc doc' : JsonObj)
    (hload : load_json fs "portfolio.json" = .ok (.obj doc))
    (haug : augment fs year doc = .ok doc')
    (hfail : tmpls "index_template.html" = none
      ∨ tmpls "resume_template.html" = none
      ∨ (∃ t, tmpls "index_template.html" = some t
          ∧ ∃ e, render_template (setup_jinja_env tmpls) t doc' = .error e)
      ∨ (∃ t, tmpls "resume_template.html" = some t
          ∧ ∃ e, render_template (setup_jinja_env tmpls) t doc' = .error e)) :
    (∃ e, mainRun fs tmpls year = .error e)
      ∧ mainWrites fs tmpls year = [] := by
  have hst := mainRun_render_stage fs tmpls year doc doc' hload haug
  have herr : ∃ e, mainRun fs tmpls year = .error e := by
    rcases hfail with he | he | ⟨t, ht, e, hre⟩ | ⟨t, ht, e, hre⟩
    · exact ⟨RunError.templateNotFound "index_template.html",
        by simp [hst, load_template_setup, he, bind, Except.bind]⟩
    · cases hit : tmpls "index_template.html" with
      | none =>
        exact ⟨RunError.templateNotFound "index_template.html",
          by simp [hst, load_template_setup, hit, bind, Except.bind]⟩
      | some it =>
        exact ⟨RunError.templateNotFound "resume_template.html",
          by simp [hst, load_template_setup, hit, he, bind, Except.bind]⟩
    · cases hrt : tmpls "resume_template.html" with
      | none =>
        exact ⟨RunError.templateNotFound "resume_template.html",
          by simp [hst, load_template_setup, ht, hrt, bind, Except.bind]⟩
      | some rt =>
        exact ⟨e, by simp [hst, load_template_setup, ht, hrt, hre, bind,
          Except.bind]⟩
    · cases hit : tmpls "index_template.html" with
      | none =>
        exact ⟨RunError.templateNotFound "index_template.html",
          by simp [hst, load_template_setup, hit, bind, Except.bind]⟩
      | some it =>
        cases hri : render_template (setup_jinja_env tmpls) it doc' with
        | error e' =>
          exact ⟨e', by simp [hst, load_template_setup, hit, ht, hri, bind,
            Except.bind]⟩
        | ok ho =>
          exact ⟨e, by simp [hst, load_template_setup, hit, ht, hri, hre,
            bind, Except.bind]⟩
  rcases herr with ⟨e, he⟩
  refine ⟨⟨e, he⟩, ?_⟩
  unfold mainWrites
  rw [he]

/-- C10 witness: with both templates absent, a successfully loaded and
augmented document still produces an error and no writes. -/
theorem c10_render_before_write_witness :
    (∃ e, mainRun exFS (fun _ => none) 2026 = .error e)
      ∧ mainWrites exFS (fun _ => none) 2026 = [] := by
  exact c10_render_before_write exFS (fun _ => none) 2026 exDoc _
    (by simp [load_json, exFS, parseJson_serialize]) rfl (Or.inl rfl)
